import Mathlib

/-!
# RX relay receiver (`src/main.cpp`): embedding and verified properties

The firmware is a single-threaded loop over global variables.  The globals
become the fields of `State`; every C function becomes a function on
`State`.  Machine integers are `Nat`/`Int` with explicit reduction
(`uint8_t` = mod 2^8, `uint16_t` = mod 2^16, `uint32_t`/`size_t` = mod 2^32,
`long` = 32 bit two's complement, the ESP32 being an ILP32 target).

The Arduino primitives `pinMode`/`digitalWrite` append to a log of
hardware operations (`State.hw`, newest first); the level of a line is the
level of the newest `digitalWrite` to it.  `Serial.print` debugging output
has no effect on the state and is left out.
-/

namespace RX

/-! ## Constants -/

def LOW : Nat := 0
def HIGH : Nat := 1

def RELAY_COUNT : Nat := 13

/-- The labels `"CBADEHGFZMOKT"` as byte values. -/
def keyOrder : List Nat := [67, 66, 65, 68, 69, 72, 71, 70, 90, 77, 79, 75, 84]

def RELAY_ACTIVE_LEVEL : Nat := LOW
def RELAY_INACTIVE_LEVEL : Nat := HIGH

/-- Compiled-in initial value of `RELAY_PINS`. -/
def DEFAULT_PINS : List Nat := [13, 14, 18, 19, 21, 22, 23, 25, 26, 27, 32, 33, 16]

def ALLOWED_PINS : List Nat := [13, 14, 16, 18, 19, 21, 22, 23, 25, 26, 27, 32, 33]

def LED_PIN : Int := 2
def LED_ACTIVE_HIGH : Bool := true

def RELAY_TIMEOUT_MS : Nat := 500

/-- Size of `rxBuf` in bytes, `sizeof(rxBuf)`. -/
def RXBUF_SIZE : Nat := 24

/-- Modulus of `uint32_t` and of `size_t` on the target. -/
def U32 : Nat := 4294967296

/-! ## Hardware and storage -/

/-- One call of an Arduino pin primitive. -/
inductive HwOp where
  | pinMode (pin : Nat)
  | digitalWrite (pin : Nat) (level : Nat)
deriving DecidableEq, Repr

/-- Keys of the `"cfg"` preferences namespace: `"p" + i` and `"k_" + label`. -/
inductive Key where
  | p (i : Nat)
  | k (label : Nat)
deriving DecidableEq, Repr

/-- The global variables of the program (`RELAY_PINS`, `rxBuf`, `rxIdx`,
`lastCmdMs`, `lastMask`), the pin log `hw`, the preferences store `prefs`,
and two histories kept for observation only, which no function reads:
`rxStores` and `rxFrames`. -/
structure State where
  RELAY_PINS : List Nat
  rxBuf : List Nat
  rxIdx : Nat
  lastCmdMs : Nat
  lastMask : Nat
  hw : List HwOp
  prefs : List (Key × Nat)
  /-- Indices of the stores into `rxBuf` done so far, newest first. -/
  rxStores : List Nat
  /-- Lines handed to `tryParseAndApply` so far with its result, newest first. -/
  rxFrames : List (List Nat × Bool)
deriving DecidableEq, Repr

/-- Level of line `pin`: the newest `digitalWrite` to it in the log, if any. -/
def levelOf (pin : Nat) : List HwOp → Option Nat
  | [] => none
  | HwOp.digitalWrite q l :: rest => if q = pin then some l else levelOf pin rest
  | HwOp.pinMode _ :: rest => levelOf pin rest

def pinMode (pin : Nat) (s : State) : State :=
  { s with hw := HwOp.pinMode pin :: s.hw }

def digitalWrite (pin : Nat) (level : Nat) (s : State) : State :=
  { s with hw := HwOp.digitalWrite pin level :: s.hw }

/-- Value of `prefs.getUChar(key, dflt)`. -/
def getUChar (key : Key) (dflt : Nat) : List (Key × Nat) → Nat
  | [] => dflt
  | (k, v) :: rest => if k = key then v else getUChar key dflt rest

/-- Effect of `prefs.putUChar(key, v)`. -/
def putUChar (key : Key) (v : Nat) (s : State) : State :=
  { s with prefs := (key, v) :: s.prefs }

/-! ## Utilities (`setLed`, `writeRelay`, `applyRelayMask`, ...) -/

def setLed (isOn : Bool) (s : State) : State :=
  if LED_PIN < 0 then s
  else digitalWrite LED_PIN.toNat
    (if LED_ACTIVE_HIGH then (if isOn then HIGH else LOW) else (if isOn then LOW else HIGH)) s

def writeRelay (pin : Nat) (isOn : Bool) (s : State) : State :=
  digitalWrite pin (if isOn then RELAY_ACTIVE_LEVEL else RELAY_INACTIVE_LEVEL) (pinMode pin s)

/-- Body of the `for` loop of `applyRelayMask` run over the indices `is`. -/
def applyRelayMaskLoop (mask : Nat) : List Nat → State → State
  | [], s => s
  | i :: is, s =>
    applyRelayMaskLoop mask is (writeRelay (s.RELAY_PINS.getD i 0) ((mask >>> i) &&& 1 != 0) s)

def applyRelayMask (mask : Nat) (s : State) : State :=
  applyRelayMaskLoop mask (List.range RELAY_COUNT) s

def allRelaysOff (s : State) : State :=
  applyRelayMask 0 s

def applyPinModesFromConfigLoop : List Nat → State → State
  | [], s => s
  | i :: is, s =>
    applyPinModesFromConfigLoop is
      (digitalWrite (s.RELAY_PINS.getD i 0) RELAY_INACTIVE_LEVEL
        (pinMode (s.RELAY_PINS.getD i 0) s))

def applyPinModesFromConfig (s : State) : State :=
  applyPinModesFromConfigLoop (List.range RELAY_COUNT) s

def isAllowedPin (p : Nat) : Bool :=
  ALLOWED_PINS.any (fun a => a == p)

/-- The inner `for (j = i + 1; j < n; j++)` loop of `hasDuplicates`. -/
def hasDuplicatesInner (pins : List Nat) (i : Nat) : List Nat → Bool
  | [] => false
  | j :: js => if pins.getD i 0 = pins.getD j 0 then true else hasDuplicatesInner pins i js

/-- The outer `for (i = 0; i < n; i++)` loop of `hasDuplicates`. -/
def hasDuplicatesOuter (pins : List Nat) (n : Nat) : List Nat → Bool
  | [] => false
  | i :: is =>
    if hasDuplicatesInner pins i (List.range' (i + 1) (n - (i + 1))) then true
    else hasDuplicatesOuter pins n is

def hasDuplicates (pins : List Nat) (n : Nat) : Bool :=
  hasDuplicatesOuter pins n (List.range n)

/-- All channels' lines are at the inactive level. -/
def allInactive (s : State) : Prop :=
  ∀ i, i < RELAY_COUNT → levelOf (s.RELAY_PINS.getD i 0) s.hw = some RELAY_INACTIVE_LEVEL

/-- State invariant: thirteen channels, each assigned an allowed line. -/
def WF (s : State) : Prop :=
  s.RELAY_PINS.length = RELAY_COUNT ∧ ∀ p ∈ s.RELAY_PINS, isAllowedPin p = true

instance (s : State) : Decidable (allInactive s) := by
  unfold allInactive; infer_instance

instance (s : State) : Decidable (WF s) := by
  unfold WF; infer_instance

/-! ## Preferences (`loadPinsFromPrefs`, `savePinsToPrefs`) -/

/-- The value `stored` of `loadPinsFromPrefs` for channel `i`: what is under
`"p" + i`, or, when that gives 255, what is under `"k_" + label`. -/
def storedPin (i : Nat) (prefs : List (Key × Nat)) : Nat :=
  if getUChar (Key.p i) 255 prefs = 255 then getUChar (Key.k (keyOrder.getD i 0)) 255 prefs
  else getUChar (Key.p i) 255 prefs

/-- The `for` loop of `loadPinsFromPrefs`; the flag is the local `changed`. -/
def loadPinsLoop : List Nat → State × Bool → State × Bool
  | [], r => r
  | i :: is, (s, changed) =>
    if storedPin i s.prefs ≠ 255 ∧ isAllowedPin (storedPin i s.prefs % 256) = true then
      if s.RELAY_PINS.getD i 0 ≠ storedPin i s.prefs % 256 then
        loadPinsLoop is
          ({ s with RELAY_PINS := s.RELAY_PINS.set i (storedPin i s.prefs % 256) }, true)
      else loadPinsLoop is (s, changed)
    else
      loadPinsLoop is
        (putUChar (Key.k (keyOrder.getD i 0)) (s.RELAY_PINS.getD i 0)
          (putUChar (Key.p i) (s.RELAY_PINS.getD i 0) s), changed)

def loadPinsFromPrefs (s : State) : State :=
  let r := loadPinsLoop (List.range RELAY_COUNT) (s, false)
  if r.2 then applyPinModesFromConfig r.1 else r.1

def savePinsLoop (pins : List Nat) : List Nat → State → State
  | [], s => s
  | i :: is, s =>
    savePinsLoop pins is
      (putUChar (Key.k (keyOrder.getD i 0)) (pins.getD i 0) (putUChar (Key.p i) (pins.getD i 0) s))

def savePinsToPrefs (pins : List Nat) (s : State) : State :=
  savePinsLoop pins (List.range RELAY_COUNT) s

/-! ## HTTP handler `handleSave` -/

/-- Conversion of an `int` to `uint8_t`. -/
def toU8 (x : Int) : Nat := (x % 256).toNat

/-- Conversion of a `long` to `uint16_t`. -/
def toU16 (x : Int) : Nat := (x % 65536).toNat

/-- The validation loop of `handleSave` over the indices `is`.  `args[i]` is
`none` when the request has no argument `pin_<i>`, else the value of
`server.arg("pin_<i>").toInt()`.  The result is `none` when the loop leaves
with `ok = false`, else the collected `newPins`. -/
def readPins (args : List (Option Int)) : List Nat → Option (List Nat)
  | [] => some []
  | i :: is =>
    match args.getD i none with
    | none => none
    | some val =>
      if isAllowedPin (toU8 val) = true then
        match readPins args is with
        | none => none
        | some rest => some (toU8 val :: rest)
      else none

/-- Handler of `POST /save`; the second component is the HTTP status sent. -/
def handleSave (args : List (Option Int)) (s : State) : State × Nat :=
  match readPins args (List.range RELAY_COUNT) with
  | none => (s, 400)
  | some newPins =>
    if hasDuplicates newPins RELAY_COUNT = true then (s, 409)
    else
      let s1 := allRelaysOff s
      let s2 := { s1 with RELAY_PINS := newPins }
      let s3 := savePinsToPrefs s2.RELAY_PINS s2
      (applyPinModesFromConfig s3, 200)

/-! ## Command parser -/

/-- C library `isspace` in the "C" locale. -/
def isspace (c : Nat) : Bool := c == 32 || (9 ≤ c && c ≤ 13)

/-- Value of a byte as a digit in `strtol`: `0-9`, `A-Z`, `a-z`. -/
def digitVal (c : Nat) : Option Nat :=
  if 48 ≤ c ∧ c ≤ 57 then some (c - 48)
  else if 65 ≤ c ∧ c ≤ 90 then some (c - 55)
  else if 97 ≤ c ∧ c ≤ 122 then some (c - 87)
  else none

/-- Digit loop of `strtol`: the exact value of the longest run of digits
below `base`, starting from the accumulator `acc`. -/
def strtolDigits (base : Nat) : List Nat → Nat → Nat
  | [], acc => acc
  | c :: cs, acc =>
    match digitVal c with
    | some d => if d < base then strtolDigits base cs (acc * base + d) else acc
    | none => acc

/-- Leading white space skipped by `strtol`. -/
def skipSpace : List Nat → List Nat
  | [] => []
  | c :: cs => if isspace c = true then skipSpace cs else c :: cs

def LONG_MAX : Int := 2147483647
def LONG_MIN : Int := -2147483648

/-- The part of `strtol` after the sign: an optional `0x`/`0X`, the longest
run of hexadecimal digits, and the range check for a 32 bit `long`. -/
def strtolBody (neg : Bool) (s2 : List Nat) : Int :=
  let s3 := if s2.getD 0 0 = 48 ∧ (s2.getD 1 0 = 120 ∨ s2.getD 1 0 = 88) then s2.drop 2 else s2
  let v := strtolDigits 16 s3 0
  if neg = true then (if v > 2147483648 then LONG_MIN else - (v : Int))
  else (if v > 2147483647 then LONG_MAX else (v : Int))

/-- C library `strtol(s, nullptr, 16)` for a 32 bit `long` (ISO C 7.22.1.4):
white space, an optional sign, an optional `0x`/`0X`, then the longest run of
hexadecimal digits; no digits give 0, a value out of range gives `LONG_MAX`
or `LONG_MIN`.  The string `s` is the list of bytes before its NUL. -/
def strtol16 (s : List Nat) : Int :=
  let s1 := skipSpace s
  if s1.getD 0 0 = 45 then strtolBody true (s1.drop 1)
  else if s1.getD 0 0 = 43 then strtolBody false (s1.drop 1)
  else strtolBody false s1

/-- The `while (*line == ' ' || *line == '\t') line++;` of `tryParseAndApply`. -/
def skipBlanks : List Nat → List Nat
  | [] => []
  | c :: cs => if c = 32 ∨ c = 9 then skipBlanks cs else c :: cs

/-- The mask computed from the text after `K:`. -/
def parseMask (rest : List Nat) : Nat :=
  toU16 (strtol16 rest) &&& 0x1FFF

/-- The parser: `line` is the C string (the bytes before the NUL, a read past
them gives 0), `now` the value `millis()` returns. -/
def tryParseAndApply (now : Nat) (line : List Nat) (s : State) : State × Bool :=
  let l := skipBlanks line
  if l.getD 0 0 ≠ 75 ∨ l.getD 1 0 ≠ 58 then (s, false)
  else
    let mask := parseMask (l.drop 2)
    let s1 := applyRelayMask mask s
    let s2 := { s1 with lastMask := mask }
    let s3 := { s2 with lastCmdMs := now }
    (setLed (mask != 0) s3, true)

/-! ## `setup` and `loop` -/

/-- The C string starting at `rxBuf[0]`: the bytes before the first NUL. -/
def cstr (buf : List Nat) : List Nat := buf.takeWhile (fun b => b != 0)

/-- One turn of the `while (HC12.available())` loop for the byte `c`; `now`
is what `millis()` returns should a line be parsed.  `rxIdx - 1` is computed
in `size_t`.  A store at an index outside the 24 bytes leaves `rxBuf` as it
is (what it hits in memory is not part of the state). -/
def rxByte (now c : Nat) (s : State) : State :=
  if c = 10 then
    let s1 := { s with rxBuf := s.rxBuf.set s.rxIdx 0, rxStores := s.rxIdx :: s.rxStores }
    let r := tryParseAndApply now (cstr s1.rxBuf) s1
    { r.1 with rxIdx := 0, rxFrames := (cstr s1.rxBuf, r.2) :: r.1.rxFrames }
  else if c ≠ 13 then
    let s1 := if s.rxIdx < RXBUF_SIZE - 1 then { s with rxIdx := s.rxIdx + 1 }
              else { s with rxIdx := 0 }
    let idx := (s1.rxIdx + U32 - 1) % U32
    { s1 with rxBuf := s1.rxBuf.set idx c, rxStores := idx :: s1.rxStores }
  else s

/-- The `while (HC12.available())` loop over the buffered bytes, each paired
with the clock value at its turn. -/
def rxDrain : List (Nat × Nat) → State → State
  | [], s => s
  | (c, now) :: rest, s => rxDrain rest (rxByte now c s)

/-- A request served by `server.handleClient()` (`/reboot` restarts the chip
and ends the run, so it is not a step of this model). -/
inductive Request where
  | root
  | save (args : List (Option Int))
  | json
deriving DecidableEq, Repr

def handleClient : Option Request → State → State
  | some (Request.save args), s => (handleSave args s).1
  | _, s => s

/-- One pass of `loop()`: `req` the pending request if any, `rx` the bytes
buffered by the transport, `now` the value of `millis()` at the timeout check. -/
def loop (req : Option Request) (rx : List (Nat × Nat)) (now : Nat) (s : State) : State :=
  let s1 := rxDrain rx (handleClient req s)
  if (now + U32 - s1.lastCmdMs) % U32 > RELAY_TIMEOUT_MS then
    let s2 := if s1.lastMask ≠ 0 then { setLed false (allRelaysOff s1) with lastMask := 0 }
              else s1
    { s2 with lastCmdMs := now }
  else s1

/-- Passes of `loop()` that receive no request and no byte, at the times `ts`. -/
def idlePasses : List Nat → State → State
  | [], s => s
  | t :: ts, s => idlePasses ts (loop none [] t s)

/-- The globals as initialised at program start, with an empty pin log and
nothing stored. -/
def bootState : State :=
  { RELAY_PINS := DEFAULT_PINS, rxBuf := List.replicate 24 0, rxIdx := 0,
    lastCmdMs := 0, lastMask := 0, hw := [], prefs := [], rxStores := [], rxFrames := [] }

/-- The relay part of `setup()`, `now` being the value of `millis()`. -/
def setup (now : Nat) (s : State) : State :=
  let s0 := if LED_PIN ≥ 0 then setLed false (pinMode LED_PIN.toNat s) else s
  let s1 := allRelaysOff (applyPinModesFromConfig (loadPinsFromPrefs s0))
  { s1 with rxIdx := 0, lastCmdMs := now, lastMask := 0 }

/-- Bytes of an ASCII text. -/
def bytes (t : String) : List Nat := t.toList.map Char.toNat

/-- Bytes all read at clock value `now`. -/
def atTime (now : Nat) (bs : List Nat) : List (Nat × Nat) := bs.map (fun b => (b, now))

/-- The spec's base-16 value of a string of hexadecimal digits. -/
def hexValue (h : List Nat) : Nat :=
  h.foldl (fun acc c => acc * 16 + (digitVal c).getD 0) 0

/-- Level written by `writeRelay` for bit `i` of `mask`. -/
def bitLevel (mask i : Nat) : Nat :=
  if ((mask >>> i) &&& 1 != 0) = true then RELAY_ACTIVE_LEVEL else RELAY_INACTIVE_LEVEL

/-- Level `setLed` writes to the LED line. -/
def ledLevel (isOn : Bool) : Nat := if isOn = true then HIGH else LOW

/-- The Allowed Output Set as a list of integer identifiers. -/
def ALLOWED_IDS : List Int := ALLOWED_PINS.map Int.ofNat

/-- A hexadecimal digit `0-9`, `A-F`, `a-f`. -/
def isHexDigit (c : Nat) : Bool :=
  (48 ≤ c && c ≤ 57) || (65 ≤ c && c ≤ 70) || (97 ≤ c && c ≤ 102)

/-! ## Lemmas on the output loops -/

section outputs

@[simp] theorem applyRelayMaskLoop_pins (mask : Nat) (is : List Nat) (s : State) :
    (applyRelayMaskLoop mask is s).RELAY_PINS = s.RELAY_PINS := by
  induction is generalizing s with
  | nil => rfl
  | cons i is ih => simp [applyRelayMaskLoop, ih, writeRelay, digitalWrite, pinMode]

@[simp] theorem applyRelayMaskLoop_lastMask (mask : Nat) (is : List Nat) (s : State) :
    (applyRelayMaskLoop mask is s).lastMask = s.lastMask := by
  induction is generalizing s with
  | nil => rfl
  | cons i is ih => simp [applyRelayMaskLoop, ih, writeRelay, digitalWrite, pinMode]

@[simp] theorem applyRelayMaskLoop_lastCmdMs (mask : Nat) (is : List Nat) (s : State) :
    (applyRelayMaskLoop mask is s).lastCmdMs = s.lastCmdMs := by
  induction is generalizing s with
  | nil => rfl
  | cons i is ih => simp [applyRelayMaskLoop, ih, writeRelay, digitalWrite, pinMode]

@[simp] theorem applyRelayMaskLoop_prefs (mask : Nat) (is : List Nat) (s : State) :
    (applyRelayMaskLoop mask is s).prefs = s.prefs := by
  induction is generalizing s with
  | nil => rfl
  | cons i is ih => simp [applyRelayMaskLoop, ih, writeRelay, digitalWrite, pinMode]

theorem levelOf_writeRelay (p q : Nat) (b : Bool) (s : State) :
    levelOf p (writeRelay q b s).hw =
      if q = p then some (if b = true then RELAY_ACTIVE_LEVEL else RELAY_INACTIVE_LEVEL)
      else levelOf p s.hw := by
  simp [writeRelay, digitalWrite, pinMode, levelOf]

/-- A line none of the visited channels is assigned to keeps its level. -/
theorem levelOf_applyRelayMaskLoop_other (mask p : Nat) (is : List Nat) (s : State)
    (h : ∀ j ∈ is, s.RELAY_PINS.getD j 0 ≠ p) :
    levelOf p (applyRelayMaskLoop mask is s).hw = levelOf p s.hw := by
  induction is generalizing s with
  | nil => rfl
  | cons i is ih =>
    have hi : s.RELAY_PINS.getD i 0 ≠ p := h i (List.mem_cons_self _ _)
    have hr : ∀ j ∈ is, s.RELAY_PINS.getD j 0 ≠ p := fun j hj => h j (List.mem_cons_of_mem _ hj)
    simp only [applyRelayMaskLoop]
    rw [ih]
    · rw [levelOf_writeRelay, if_neg hi]
    · intro j hj
      simpa [writeRelay, digitalWrite, pinMode] using hr j hj

/-- A line assigned to a visited channel ends at the level `v` when every
visited channel assigned to it is written `v`. -/
theorem levelOf_applyRelayMaskLoop_mem (mask p v : Nat) (is : List Nat) (s : State)
    (hv : ∀ j ∈ is, s.RELAY_PINS.getD j 0 = p → bitLevel mask j = v)
    (hex : ∃ j ∈ is, s.RELAY_PINS.getD j 0 = p) :
    levelOf p (applyRelayMaskLoop mask is s).hw = some v := by
  induction is generalizing s with
  | nil => obtain ⟨j, hj, _⟩ := hex; cases hj
  | cons i is ih =>
    simp only [applyRelayMaskLoop]
    by_cases hlater : ∃ j ∈ is, s.RELAY_PINS.getD j 0 = p
    · apply ih
      · intro j hj hp
        exact hv j (List.mem_cons_of_mem _ hj)
          (by simpa [writeRelay, digitalWrite, pinMode] using hp)
      · obtain ⟨j, hj, hp⟩ := hlater
        exact ⟨j, hj, by simpa [writeRelay, digitalWrite, pinMode] using hp⟩
    · have hi : s.RELAY_PINS.getD i 0 = p := by
        obtain ⟨j, hj, hp⟩ := hex
        rcases List.mem_cons.mp hj with rfl | hj2
        · exact hp
        · exact absurd ⟨j, hj2, hp⟩ hlater
      rw [levelOf_applyRelayMaskLoop_other]
      · rw [levelOf_writeRelay, if_pos hi]
        have := hv i (List.mem_cons_self _ _) hi
        simpa [bitLevel] using this
      · intro j hj hp
        exact hlater ⟨j, hj, by simpa [writeRelay, digitalWrite, pinMode] using hp⟩

theorem bitLevel_zero (i : Nat) : bitLevel 0 i = RELAY_INACTIVE_LEVEL := by
  simp [bitLevel]

/-- After `allRelaysOff` every channel's line is inactive, whatever the map. -/
theorem allRelaysOff_level (s : State) (i : Nat) (hi : i < RELAY_COUNT) :
    levelOf (s.RELAY_PINS.getD i 0) (allRelaysOff s).hw = some RELAY_INACTIVE_LEVEL := by
  unfold allRelaysOff applyRelayMask
  apply levelOf_applyRelayMaskLoop_mem
  · intro j _ _
    exact bitLevel_zero j
  · exact ⟨i, List.mem_range.mpr hi, rfl⟩

theorem mem_allowed_ne_led (p : Nat) (h : isAllowedPin p = true) : p ≠ 2 := by
  intro hp
  subst hp
  revert h
  decide

theorem getD_mem_of_lt (l : List Nat) (i : Nat) (h : i < l.length) : l.getD i 0 ∈ l := by
  rw [List.getD_eq_getElem l 0 h]
  exact List.getElem_mem h

end outputs

/-! ## Lemmas on the parser -/

section parser

theorem setLed_eq (b : Bool) (s : State) :
    setLed b s = { s with hw := HwOp.digitalWrite 2 (ledLevel b) :: s.hw } := by
  cases b <;> rfl

theorem skipBlanks_append (ws l : List Nat) (hws : ∀ c ∈ ws, c = 32 ∨ c = 9) :
    skipBlanks (ws ++ l) = skipBlanks l := by
  induction ws with
  | nil => rfl
  | cons c cs ih =>
    have hc : c = 32 ∨ c = 9 := hws c (List.mem_cons_self _ _)
    have hcs : ∀ d ∈ cs, d = 32 ∨ d = 9 := fun d hd => hws d (List.mem_cons_of_mem _ hd)
    show skipBlanks (c :: (cs ++ l)) = skipBlanks l
    rw [skipBlanks, if_pos hc, ih hcs]

/-- What `tryParseAndApply` does on a line `blanks ++ "K:" ++ rest`. -/
theorem tryParseAndApply_cmd (now : Nat) (ws rest : List Nat) (s : State)
    (hws : ∀ c ∈ ws, c = 32 ∨ c = 9) :
    tryParseAndApply now (ws ++ 75 :: 58 :: rest) s =
      (setLed (parseMask rest != 0)
        { applyRelayMask (parseMask rest) s with
          lastMask := parseMask rest, lastCmdMs := now }, true) := by
  unfold tryParseAndApply
  rw [skipBlanks_append ws _ hws]
  have h : skipBlanks (75 :: 58 :: rest) = 75 :: 58 :: rest := by
    rw [skipBlanks, if_neg (by decide)]
  rw [h]
  simp

theorem isHexDigit_digitVal (c : Nat) (h : isHexDigit c = true) :
    ∃ d, digitVal c = some d ∧ d < 16 := by
  simp only [isHexDigit, Bool.or_eq_true, Bool.and_eq_true, decide_eq_true_eq] at h
  unfold digitVal
  rcases h with (h | h) | h
  · exact ⟨c - 48, by rw [if_pos h], by omega⟩
  · exact ⟨c - 55, by rw [if_neg (by omega), if_pos (by omega)], by omega⟩
  · exact ⟨c - 87, by rw [if_neg (by omega), if_neg (by omega), if_pos (by omega)], by omega⟩

theorem not_isHexDigit_digitVal (c d : Nat) (h : isHexDigit c = false) (hd : digitVal c = some d) :
    ¬ d < 16 := by
  simp only [isHexDigit, Bool.or_eq_false_iff, Bool.and_eq_false_iff, decide_eq_false_iff_not]
    at h
  unfold digitVal at hd
  split_ifs at hd with h1 h2 h3
  · cases hd; omega
  · cases hd; omega
  · cases hd; omega

theorem strtolDigits_hex (h : List Nat) (acc : Nat) (hh : ∀ c ∈ h, isHexDigit c = true) :
    strtolDigits 16 h acc = h.foldl (fun a c => a * 16 + (digitVal c).getD 0) acc := by
  induction h generalizing acc with
  | nil => rfl
  | cons c cs ih =>
    obtain ⟨d, hd, hlt⟩ := isHexDigit_digitVal c (hh c (List.mem_cons_self _ _))
    have hcs : ∀ x ∈ cs, isHexDigit x = true := fun x hx => hh x (List.mem_cons_of_mem _ hx)
    simp only [strtolDigits, hd, if_pos hlt, List.foldl_cons, Option.getD_some]
    exact ih _ hcs

theorem strtolDigits_nohex (r : List Nat) (hr : isHexDigit (r.getD 0 0) = false) :
    strtolDigits 16 r 0 = 0 := by
  cases r with
  | nil => rfl
  | cons c cs =>
    have hc : isHexDigit c = false := by simpa using hr
    unfold strtolDigits
    cases hd : digitVal c with
    | none => rfl
    | some d => simp only [if_neg (not_isHexDigit_digitVal c d hc hd)]

theorem skipSpace_append (sp l : List Nat) (hsp : ∀ c ∈ sp, isspace c = true) :
    skipSpace (sp ++ l) = skipSpace l := by
  induction sp with
  | nil => rfl
  | cons c cs ih =>
    have hc : isspace c = true := hsp c (List.mem_cons_self _ _)
    have hcs : ∀ d ∈ cs, isspace d = true := fun d hd => hsp d (List.mem_cons_of_mem _ hd)
    show skipSpace (c :: (cs ++ l)) = skipSpace l
    rw [skipSpace, if_pos hc, ih hcs]

theorem skipSpace_of_head (l : List Nat) (h : isspace (l.getD 0 0) = false) :
    skipSpace l = l := by
  cases l with
  | nil => rfl
  | cons c cs =>
    have hc : isspace c = false := by simpa using h
    rw [skipSpace, if_neg (by simp [hc])]

/-- On a string of hexadecimal digits `strtol` returns their value, or
`LONG_MAX` when the value does not fit in a 32 bit `long`. -/
theorem strtol16_hex (h : List Nat) (hh : ∀ c ∈ h, isHexDigit c = true) :
    strtol16 h = if hexValue h > 2147483647 then LONG_MAX else (hexValue h : Int) := by
  have hhead : isHexDigit (h.getD 0 0) = true ∨ h = [] := by
    cases h with
    | nil => exact Or.inr rfl
    | cons c cs => exact Or.inl (by simpa using hh c (List.mem_cons_self _ _))
  have hsp : isspace (h.getD 0 0) = false := by
    rcases hhead with hx | rfl
    · generalize h.getD 0 0 = c at hx
      simp only [isHexDigit, Bool.or_eq_true, Bool.and_eq_true, decide_eq_true_eq] at hx
      simp only [isspace, Bool.or_eq_false_iff, Bool.and_eq_false_iff, beq_eq_false_iff_ne,
        decide_eq_false_iff_not]
      omega
    · rfl
  have hsign : h.getD 0 0 ≠ 45 ∧ h.getD 0 0 ≠ 43 := by
    rcases hhead with hx | rfl
    · generalize h.getD 0 0 = c at hx
      simp only [isHexDigit, Bool.or_eq_true, Bool.and_eq_true, decide_eq_true_eq] at hx
      omega
    · decide
  have hpre : ¬ (h.getD 0 0 = 48 ∧ (h.getD 1 0 = 120 ∨ h.getD 1 0 = 88)) := by
    rintro ⟨_, h1⟩
    match h, hh with
    | [], _ => simp at h1
    | [_], _ => simp at h1
    | _ :: c :: _, hh =>
      have hc : isHexDigit c = true := hh c (by simp)
      have h1 : c = 120 ∨ c = 88 := by simpa using h1
      rcases h1 with rfl | rfl <;> exact absurd hc (by decide)
  unfold strtol16
  simp only [skipSpace_of_head h hsp, if_neg hsign.1, if_neg hsign.2]
  unfold strtolBody
  simp only [if_neg hpre, strtolDigits_hex h 0 hh]
  rfl

theorem parseMask_hex (h : List Nat) (hh : ∀ c ∈ h, isHexDigit c = true) :
    parseMask h = if hexValue h < 2 ^ 31 then hexValue h % 2 ^ 13 else 0x1FFF := by
  unfold parseMask
  rw [strtol16_hex h hh]
  by_cases hv : hexValue h < 2 ^ 31
  · rw [if_pos hv, if_neg (by omega)]
    have h1 : toU16 (hexValue h : Int) = hexValue h % 65536 := by
      unfold toU16
      have : ((hexValue h : Int) % 65536) = ((hexValue h % 65536 : Nat) : Int) := by
        push_cast; rfl
      rw [this, Int.toNat_ofNat]
    rw [h1]
    have h2 := Nat.and_pow_two_sub_one_eq_mod (hexValue h % 65536) 13
    have h3 : (0x1FFF : Nat) = 2 ^ 13 - 1 := by norm_num
    rw [h3, h2]
    exact Nat.mod_mod_of_dvd _ (by norm_num)
  · rw [if_neg hv, if_pos (by omega)]
    rfl

theorem strtolBody_nodigits (neg : Bool) (r : List Nat)
    (hr : isHexDigit (r.getD 0 0) = false) : strtolBody neg r = 0 := by
  have hpre : ¬ (r.getD 0 0 = 48 ∧ (r.getD 1 0 = 120 ∨ r.getD 1 0 = 88)) := by
    rintro ⟨h0, _⟩
    rw [h0] at hr
    exact absurd hr (by decide)
  unfold strtolBody
  simp only [if_neg hpre, strtolDigits_nohex r hr]
  cases neg <;> rfl

theorem parseMask_nodigits (sp sign r : List Nat) (hsp : ∀ c ∈ sp, isspace c = true)
    (hsign : sign = [] ∨ sign = [43] ∨ sign = [45])
    (hr : isHexDigit (r.getD 0 0) = false)
    (hmax : sign = [] → isspace (r.getD 0 0) = false ∧ r.getD 0 0 ≠ 43 ∧ r.getD 0 0 ≠ 45) :
    parseMask (sp ++ sign ++ r) = 0 := by
  unfold parseMask strtol16
  rw [List.append_assoc, skipSpace_append sp _ hsp]
  rcases hsign with rfl | rfl | rfl
  · obtain ⟨h1, h2, h3⟩ := hmax rfl
    simp only [List.nil_append, skipSpace_of_head r h1, if_neg h3, if_neg h2,
      strtolBody_nodigits _ r hr]
    rfl
  · have hs : skipSpace ([43] ++ r) = 43 :: r := by
      show skipSpace (43 :: r) = 43 :: r
      rw [skipSpace, if_neg (by decide)]
    rw [hs]
    show toU16 (strtolBody false r) &&& 0x1FFF = 0
    rw [strtolBody_nodigits _ r hr]
    rfl
  · have hs : skipSpace ([45] ++ r) = 45 :: r := by
      show skipSpace (45 :: r) = 45 :: r
      rw [skipSpace, if_neg (by decide)]
    rw [hs]
    show toU16 (strtolBody true r) &&& 0x1FFF = 0
    rw [strtolBody_nodigits _ r hr]
    rfl

/-- All channels inactive and the LED off after `allRelaysOff` followed by
`setLed(false)`, on a map of allowed lines. -/
theorem allOff_ledOff (s t : State) (hwf : WF s) (hp : t.RELAY_PINS = s.RELAY_PINS)
    (hhw : t.hw = HwOp.digitalWrite 2 LOW :: (allRelaysOff s).hw) :
    allInactive t ∧ levelOf 2 t.hw = some LOW := by
  constructor
  · intro i hi
    rw [hp, hhw]
    have hmem : s.RELAY_PINS.getD i 0 ∈ s.RELAY_PINS :=
      getD_mem_of_lt _ _ (by rw [hwf.1]; exact hi)
    have hne : s.RELAY_PINS.getD i 0 ≠ 2 := mem_allowed_ne_led _ (hwf.2 _ hmem)
    rw [levelOf, if_neg (Ne.symm hne)]
    exact allRelaysOff_level s i hi
  · rw [hhw, levelOf, if_pos rfl]

end parser

/-! ## Lemmas on the configurator and the watchdog -/

section watchdog

@[simp] theorem applyPinModesFromConfigLoop_pins (is : List Nat) (s : State) :
    (applyPinModesFromConfigLoop is s).RELAY_PINS = s.RELAY_PINS := by
  induction is generalizing s with
  | nil => rfl
  | cons i is ih => simp [applyPinModesFromConfigLoop, ih, digitalWrite, pinMode]

@[simp] theorem applyPinModesFromConfigLoop_lastMask (is : List Nat) (s : State) :
    (applyPinModesFromConfigLoop is s).lastMask = s.lastMask := by
  induction is generalizing s with
  | nil => rfl
  | cons i is ih => simp [applyPinModesFromConfigLoop, ih, digitalWrite, pinMode]

@[simp] theorem applyPinModesFromConfigLoop_lastCmdMs (is : List Nat) (s : State) :
    (applyPinModesFromConfigLoop is s).lastCmdMs = s.lastCmdMs := by
  induction is generalizing s with
  | nil => rfl
  | cons i is ih => simp [applyPinModesFromConfigLoop, ih, digitalWrite, pinMode]

@[simp] theorem savePinsLoop_pins (pins is : List Nat) (s : State) :
    (savePinsLoop pins is s).RELAY_PINS = s.RELAY_PINS := by
  induction is generalizing s with
  | nil => rfl
  | cons i is ih => simp [savePinsLoop, ih, putUChar]

@[simp] theorem savePinsLoop_lastMask (pins is : List Nat) (s : State) :
    (savePinsLoop pins is s).lastMask = s.lastMask := by
  induction is generalizing s with
  | nil => rfl
  | cons i is ih => simp [savePinsLoop, ih, putUChar]

@[simp] theorem savePinsLoop_lastCmdMs (pins is : List Nat) (s : State) :
    (savePinsLoop pins is s).lastCmdMs = s.lastCmdMs := by
  induction is generalizing s with
  | nil => rfl
  | cons i is ih => simp [savePinsLoop, ih, putUChar]

/-- The pins collected by the validation loop: one per index, each allowed. -/
theorem readPins_some (args : List (Option Int)) (is l : List Nat)
    (h : readPins args is = some l) :
    l.length = is.length ∧ ∀ p ∈ l, isAllowedPin p = true := by
  induction is generalizing l with
  | nil =>
    simp only [readPins, Option.some.injEq] at h
    subst h
    exact ⟨rfl, fun p hp => by cases hp⟩
  | cons i is ih =>
    unfold readPins at h
    cases ha : args.getD i none with
    | none => rw [ha] at h; cases h
    | some val =>
      rw [ha] at h
      simp only at h
      by_cases hal : isAllowedPin (toU8 val) = true
      · rw [if_pos hal] at h
        cases hr : readPins args is with
        | none => rw [hr] at h; cases h
        | some rest =>
          rw [hr] at h
          simp only [Option.some.injEq] at h
          subst h
          obtain ⟨h1, h2⟩ := ih rest hr
          refine ⟨by simp [h1], ?_⟩
          intro p hp
          rcases List.mem_cons.mp hp with rfl | hp
          · exact hal
          · exact h2 p hp
      · rw [if_neg hal] at h
        cases h

theorem handleSave_keeps (args : List (Option Int)) (s : State) (hwf : WF s) :
    WF (handleSave args s).1 ∧ (handleSave args s).1.lastMask = s.lastMask ∧
    (handleSave args s).1.lastCmdMs = s.lastCmdMs := by
  unfold handleSave
  cases hr : readPins args (List.range RELAY_COUNT) with
  | none => exact ⟨hwf, rfl, rfl⟩
  | some newPins =>
    simp only
    by_cases hd : hasDuplicates newPins RELAY_COUNT = true
    · rw [if_pos hd]
      exact ⟨hwf, rfl, rfl⟩
    · rw [if_neg hd]
      obtain ⟨h1, h2⟩ := readPins_some _ _ _ hr
      refine ⟨⟨?_, ?_⟩, ?_, ?_⟩
      · simpa [applyPinModesFromConfig, savePinsToPrefs] using h1
      · simpa [applyPinModesFromConfig, savePinsToPrefs] using h2
      · simp [applyPinModesFromConfig, savePinsToPrefs, allRelaysOff, applyRelayMask]
      · simp [applyPinModesFromConfig, savePinsToPrefs, allRelaysOff, applyRelayMask]

theorem handleClient_keeps (req : Option Request) (s : State) (hwf : WF s) :
    WF (handleClient req s) ∧ (handleClient req s).lastMask = s.lastMask ∧
    (handleClient req s).lastCmdMs = s.lastCmdMs := by
  cases req with
  | none => exact ⟨hwf, rfl, rfl⟩
  | some r =>
    cases r with
    | root => exact ⟨hwf, rfl, rfl⟩
    | json => exact ⟨hwf, rfl, rfl⟩
    | save args => exact handleSave_keeps args s hwf

/-- The timeout branch of `loop()` on a state with a non-zero mask. -/
theorem watchdog_fire (s t : State) (now : Nat) (hwf : WF s)
    (ht : t = { ({ setLed false (allRelaysOff s) with lastMask := 0 } : State) with
      lastCmdMs := now }) :
    allInactive t ∧ levelOf 2 t.hw = some LOW ∧ t.lastMask = 0 ∧ t.lastCmdMs = now := by
  subst ht
  rw [setLed_eq]
  obtain ⟨h1, h2⟩ := allOff_ledOff s
    { ({ ({ allRelaysOff s with
            hw := HwOp.digitalWrite 2 (ledLevel false) :: (allRelaysOff s).hw } : State) with
          lastMask := 0 } : State) with lastCmdMs := now }
    hwf (by simp [allRelaysOff, applyRelayMask]) rfl
  exact ⟨h1, h2, rfl, rfl⟩

/-- A pass without request and bytes on a state with `lastMask = 0` writes no
line and keeps the map and the mask. -/
theorem loop_idle_of_zero (now : Nat) (s : State) (h0 : s.lastMask = 0) :
    (loop none [] now s).hw = s.hw ∧ (loop none [] now s).RELAY_PINS = s.RELAY_PINS ∧
    (loop none [] now s).lastMask = 0 := by
  simp only [loop, handleClient, rxDrain]
  split_ifs <;> simp_all

theorem idlePasses_of_zero (ts : List Nat) (s : State) (h0 : s.lastMask = 0)
    (hoff : allInactive s) : allInactive (idlePasses ts s) := by
  induction ts generalizing s with
  | nil => exact hoff
  | cons t ts ih =>
    obtain ⟨h1, h2, h3⟩ := loop_idle_of_zero t s h0
    apply ih _ h3
    intro i hi
    rw [h1, h2]
    exact hoff i hi

/-- From an armed state stamped `T0`, idle passes at times in `[T0, 2^32)`,
one of them later than `T0 + 500`, end with all lines inactive. -/
theorem idlePasses_armed (T0 : Nat) (ts : List Nat) (s : State) (hwf : WF s)
    (hm : s.lastMask ≠ 0) (hT : s.lastCmdMs = T0)
    (hge : ∀ t ∈ ts, T0 ≤ t ∧ t < U32)
    (hlate : ∃ t ∈ ts, T0 + RELAY_TIMEOUT_MS < t) :
    allInactive (idlePasses ts s) := by
  induction ts with
  | nil => obtain ⟨t, ht, _⟩ := hlate; cases ht
  | cons t ts ih =>
    obtain ⟨hle, hlt⟩ := hge t (List.mem_cons_self _ _)
    have hel : (t + U32 - s.lastCmdMs) % U32 = t - T0 := by
      rw [hT]; unfold U32 at *; omega
    by_cases hfire : T0 + RELAY_TIMEOUT_MS < t
    · have hgt : (t + U32 - s.lastCmdMs) % U32 > RELAY_TIMEOUT_MS := by
        rw [hel]; omega
      have hstep : loop none [] t s =
          { ({ setLed false (allRelaysOff s) with lastMask := 0 } : State) with
            lastCmdMs := t } := by
        simp only [loop, handleClient, rxDrain]
        rw [if_pos hgt, if_pos hm]
      obtain ⟨h1, _, h3, _⟩ := watchdog_fire s _ t hwf hstep
      exact idlePasses_of_zero ts _ h3 h1
    · have hle2 : ¬ (t + U32 - s.lastCmdMs) % U32 > RELAY_TIMEOUT_MS := by
        rw [hel]; omega
      have hstep : loop none [] t s = s := by
        simp only [loop, handleClient, rxDrain]
        rw [if_neg hle2]
      show allInactive (idlePasses ts (loop none [] t s))
      rw [hstep]
      apply ih (fun x hx => hge x (List.mem_cons_of_mem _ hx))
      obtain ⟨x, hx, hxl⟩ := hlate
      rcases List.mem_cons.mp hx with rfl | hx
      · exact absurd hxl hfire
      · exact ⟨x, hx, hxl⟩

end watchdog

/-! ## Lemmas on validation -/

section validation

theorem hasDuplicatesInner_iff (pins : List Nat) (i : Nat) (js : List Nat) :
    hasDuplicatesInner pins i js = true ↔ ∃ j ∈ js, pins.getD i 0 = pins.getD j 0 := by
  induction js with
  | nil => simp [hasDuplicatesInner]
  | cons j js ih =>
    unfold hasDuplicatesInner
    by_cases h : pins.getD i 0 = pins.getD j 0
    · rw [if_pos h]
      exact ⟨fun _ => ⟨j, List.mem_cons_self _ _, h⟩, fun _ => rfl⟩
    · rw [if_neg h, ih]
      constructor
      · rintro ⟨k, hk, hp⟩
        exact ⟨k, List.mem_cons_of_mem _ hk, hp⟩
      · rintro ⟨k, hk, hp⟩
        rcases List.mem_cons.mp hk with rfl | hk
        · exact absurd hp h
        · exact ⟨k, hk, hp⟩

theorem hasDuplicatesInner_range_iff (pins : List Nat) (n i : Nat) :
    hasDuplicatesInner pins i (List.range' (i + 1) (n - (i + 1))) = true ↔
      ∃ j, i < j ∧ j < n ∧ pins.getD i 0 = pins.getD j 0 := by
  rw [hasDuplicatesInner_iff]
  constructor
  · rintro ⟨j, hj, hp⟩
    rw [List.mem_range'_1] at hj
    exact ⟨j, by omega, by omega, hp⟩
  · rintro ⟨j, h1, h2, hp⟩
    exact ⟨j, List.mem_range'_1.mpr ⟨by omega, by omega⟩, hp⟩

theorem hasDuplicatesOuter_iff (pins : List Nat) (n : Nat) (is : List Nat) :
    hasDuplicatesOuter pins n is = true ↔
      ∃ i ∈ is, ∃ j, i < j ∧ j < n ∧ pins.getD i 0 = pins.getD j 0 := by
  induction is with
  | nil => simp [hasDuplicatesOuter]
  | cons i is ih =>
    unfold hasDuplicatesOuter
    by_cases h : hasDuplicatesInner pins i (List.range' (i + 1) (n - (i + 1))) = true
    · rw [if_pos h]
      exact ⟨fun _ => ⟨i, List.mem_cons_self _ _, (hasDuplicatesInner_range_iff pins n i).mp h⟩,
        fun _ => rfl⟩
    · rw [if_neg h]
      constructor
      · intro hh
        obtain ⟨k, hk, hp⟩ := ih.mp hh
        exact ⟨k, List.mem_cons_of_mem _ hk, hp⟩
      · rintro ⟨k, hk, hp⟩
        rcases List.mem_cons.mp hk with rfl | hk
        · exact absurd ((hasDuplicatesInner_range_iff pins n k).mpr hp) h
        · exact ih.mpr ⟨k, hk, hp⟩

/-- `hasDuplicates pins n` finds exactly the pairs `i < j < n` of equal entries. -/
theorem hasDuplicates_iff (pins : List Nat) (n : Nat) :
    hasDuplicates pins n = true ↔ ∃ i j, i < j ∧ j < n ∧ pins.getD i 0 = pins.getD j 0 := by
  unfold hasDuplicates
  rw [hasDuplicatesOuter_iff]
  constructor
  · rintro ⟨i, _, j, h⟩
    exact ⟨i, j, h⟩
  · rintro ⟨i, j, h1, h2, h3⟩
    exact ⟨i, List.mem_range.mpr (by omega), j, h1, h2, h3⟩

/-- The validation loop fails as soon as one visited argument is missing or
not allowed after its conversion to `uint8_t`. -/
theorem readPins_none (args : List (Option Int)) (is : List Nat)
    (h : ∃ i ∈ is, ∀ v, args.getD i none = some v → isAllowedPin (toU8 v) = false) :
    readPins args is = none := by
  induction is with
  | nil => obtain ⟨i, hi, _⟩ := h; cases hi
  | cons i is ih =>
    unfold readPins
    cases ha : args.getD i none with
    | none => rfl
    | some val =>
      simp only
      by_cases hal : isAllowedPin (toU8 val) = true
      · rw [if_pos hal]
        have : readPins args is = none := by
          apply ih
          obtain ⟨k, hk, hbad⟩ := h
          rcases List.mem_cons.mp hk with rfl | hk
          · have := hbad val ha
            rw [hal] at this
            cases this
          · exact ⟨k, hk, hbad⟩
        rw [this]
      · rw [if_neg hal]

/-- The validation loop on arguments that are all present and allowed
collects their `uint8_t` values. -/
theorem readPins_all (vals : List Int) (is : List Nat)
    (his : ∀ i ∈ is, i < vals.length)
    (hall : ∀ v ∈ vals, isAllowedPin (toU8 v) = true) :
    readPins (vals.map some) is = some (is.map (fun i => toU8 (vals.getD i 0))) := by
  induction is with
  | nil => rfl
  | cons i is ih =>
    have hi : i < vals.length := his i (List.mem_cons_self _ _)
    have hget : (vals.map some).getD i none = some (vals.getD i 0) := by
      rw [List.getD_eq_getElem _ _ (by simpa using hi), List.getD_eq_getElem _ _ hi]
      simp
    have hal : isAllowedPin (toU8 (vals.getD i 0)) = true := by
      apply hall
      rw [List.getD_eq_getElem _ _ hi]
      exact List.getElem_mem hi
    unfold readPins
    rw [hget]
    simp only
    rw [if_pos hal, ih (fun k hk => his k (List.mem_cons_of_mem _ hk))]
    rfl

theorem getD_map_range (f : Nat → Nat) (n i : Nat) (hi : i < n) :
    ((List.range n).map f).getD i 0 = f i := by
  rw [List.getD_eq_getElem _ _ (by simpa using hi)]
  simp

theorem toU8_allowed (p : Nat) (hp : p ∈ ALLOWED_PINS) : toU8 (p : Int) = p := by
  revert p
  decide

theorem isAllowedPin_iff (p : Nat) : isAllowedPin p = true ↔ p ∈ ALLOWED_PINS := by
  simp [isAllowedPin, ALLOWED_PINS]
  omega

/-- A proposed mapping whose `uint8_t` values are all allowed and agree at
two channels `i < j` is turned down with status 409, the state untouched. -/
theorem handleSave_conflict (vals : List Int) (s : State) (hlen : vals.length = RELAY_COUNT)
    (hall : ∀ v ∈ vals, isAllowedPin (toU8 v) = true)
    (i j : Nat) (hij : i < j) (hj : j < RELAY_COUNT)
    (heq : toU8 (vals.getD i 0) = toU8 (vals.getD j 0)) :
    hasDuplicates ((List.range RELAY_COUNT).map (fun k => toU8 (vals.getD k 0))) RELAY_COUNT
      = true ∧
    handleSave (vals.map some) s = (s, 409) := by
  have hdup : hasDuplicates ((List.range RELAY_COUNT).map (fun k => toU8 (vals.getD k 0)))
      RELAY_COUNT = true := by
    rw [hasDuplicates_iff]
    refine ⟨i, j, hij, hj, ?_⟩
    rw [getD_map_range _ _ _ (by omega), getD_map_range _ _ _ hj]
    exact heq
  refine ⟨hdup, ?_⟩
  unfold handleSave
  rw [readPins_all vals _ (fun k hk => by rw [hlen]; exact List.mem_range.mp hk) hall]
  simp only
  rw [if_pos hdup]

theorem map_range_getD (f : Int → Nat) (vals : List Int) (n : Nat) (hlen : vals.length = n) :
    (List.range n).map (fun k => f (vals.getD k 0)) = vals.map f := by
  apply List.ext_getElem
  · simp [hlen]
  · intro k h1 h2
    have hk : k < vals.length := by simpa using h2
    simp [List.getElem?_eq_getElem hk]

theorem toU8_allowed_id (v : Int) (hv : v ∈ ALLOWED_IDS) :
    isAllowedPin (toU8 v) = true := by
  unfold ALLOWED_IDS at hv
  obtain ⟨p, hp, rfl⟩ := List.mem_map.mp hv
  show isAllowedPin (toU8 (p : Int)) = true
  rw [toU8_allowed p hp]
  exact (isAllowedPin_iff p).mpr hp

end validation

/-! ## Lemmas on the line framer -/

section framer

@[simp] theorem applyRelayMaskLoop_rxBuf (mask : Nat) (is : List Nat) (s : State) :
    (applyRelayMaskLoop mask is s).rxBuf = s.rxBuf := by
  induction is generalizing s with
  | nil => rfl
  | cons i is ih => simp [applyRelayMaskLoop, ih, writeRelay, digitalWrite, pinMode]

@[simp] theorem applyRelayMaskLoop_rxIdx (mask : Nat) (is : List Nat) (s : State) :
    (applyRelayMaskLoop mask is s).rxIdx = s.rxIdx := by
  induction is generalizing s with
  | nil => rfl
  | cons i is ih => simp [applyRelayMaskLoop, ih, writeRelay, digitalWrite, pinMode]

@[simp] theorem applyRelayMaskLoop_rxFrames (mask : Nat) (is : List Nat) (s : State) :
    (applyRelayMaskLoop mask is s).rxFrames = s.rxFrames := by
  induction is generalizing s with
  | nil => rfl
  | cons i is ih => simp [applyRelayMaskLoop, ih, writeRelay, digitalWrite, pinMode]

end framer

/-! ## The invariant `WF` holds in every reachable state -/

section invariant

theorem WF_of_pins (s t : State) (hwf : WF s) (h : t.RELAY_PINS = s.RELAY_PINS) : WF t := by
  unfold WF at *
  rw [h]
  exact hwf

theorem WF_bootState : WF bootState := by decide

theorem loadPinsLoop_WF (is : List Nat) (s : State) (changed : Bool) (hwf : WF s) :
    WF (loadPinsLoop is (s, changed)).1 := by
  induction is generalizing s changed with
  | nil => exact hwf
  | cons i is ih =>
    unfold loadPinsLoop
    split_ifs with h1 h2
    · apply ih
      refine ⟨by simp [hwf.1], ?_⟩
      intro p hp
      rcases List.mem_or_eq_of_mem_set hp with hp | rfl
      · exact hwf.2 p hp
      · exact h1.2
    · exact ih _ _ hwf
    · exact ih _ _ (WF_of_pins s _ hwf rfl)

theorem loadPinsFromPrefs_WF (s : State) (hwf : WF s) : WF (loadPinsFromPrefs s) := by
  unfold loadPinsFromPrefs
  simp only
  split_ifs
  · exact WF_of_pins _ _ (loadPinsLoop_WF (List.range RELAY_COUNT) s false hwf)
      (by simp [applyPinModesFromConfig])
  · exact loadPinsLoop_WF _ s false hwf

theorem setup_WF (now : Nat) (s : State) (hwf : WF s) : WF (setup now s) := by
  unfold setup
  simp only
  have h0 : WF (if LED_PIN ≥ 0 then setLed false (pinMode LED_PIN.toNat s) else s) := by
    split_ifs
    · exact WF_of_pins s _ hwf (by rw [setLed_eq]; rfl)
    · exact hwf
  exact WF_of_pins _ _ (loadPinsFromPrefs_WF _ h0)
    (by simp [allRelaysOff, applyRelayMask, applyPinModesFromConfig])

theorem tryParseAndApply_pins (now : Nat) (line : List Nat) (s : State) :
    (tryParseAndApply now line s).1.RELAY_PINS = s.RELAY_PINS := by
  unfold tryParseAndApply
  simp only
  split_ifs
  · rfl
  · rw [setLed_eq]
    simp [applyRelayMask]

theorem rxByte_pins (now c : Nat) (s : State) :
    (rxByte now c s).RELAY_PINS = s.RELAY_PINS := by
  unfold rxByte
  simp only
  split_ifs
  · exact tryParseAndApply_pins now _ _
  · rfl
  · rfl
  · rfl

theorem rxDrain_pins (rx : List (Nat × Nat)) (s : State) :
    (rxDrain rx s).RELAY_PINS = s.RELAY_PINS := by
  induction rx generalizing s with
  | nil => rfl
  | cons x xs ih =>
    obtain ⟨c, now⟩ := x
    show (rxDrain xs (rxByte now c s)).RELAY_PINS = s.RELAY_PINS
    rw [ih, rxByte_pins]

/-- Every pass of `loop()` keeps the map at thirteen allowed lines. -/
theorem loop_WF (req : Option Request) (rx : List (Nat × Nat)) (now : Nat) (s : State)
    (hwf : WF s) : WF (loop req rx now s) := by
  have h1 : WF (rxDrain rx (handleClient req s)) :=
    WF_of_pins _ _ (handleClient_keeps req s hwf).1 (rxDrain_pins rx _)
  unfold loop
  simp only
  split_ifs
  · exact WF_of_pins _ _ h1 (by rw [setLed_eq]; simp [allRelaysOff, applyRelayMask])
  · exact WF_of_pins _ _ h1 rfl
  · exact h1

end invariant

/-! ## Claims -/

set_option maxRecDepth 20000

/-- C2: for every mask `m < 2^13` and every channel map of 13 pairwise
distinct lines, after `applyRelayMask m` the line of channel `i` is at the
active level (LOW) if bit `i` of `m` is set and at the inactive level (HIGH)
otherwise, for every channel `i < 13`; the map itself is untouched. -/
theorem applyRelayMask_levels (m : Nat) (s : State) (_hm : m < 2 ^ 13)
    (hlen : s.RELAY_PINS.length = RELAY_COUNT) (hnd : s.RELAY_PINS.Nodup)
    (i : Nat) (hi : i < RELAY_COUNT) :
    (applyRelayMask m s).RELAY_PINS = s.RELAY_PINS ∧
    (m / 2 ^ i % 2 = 1 →
      levelOf (s.RELAY_PINS.getD i 0) (applyRelayMask m s).hw = some LOW) ∧
    (m / 2 ^ i % 2 ≠ 1 →
      levelOf (s.RELAY_PINS.getD i 0) (applyRelayMask m s).hw = some HIGH) := by
  have hlev : levelOf (s.RELAY_PINS.getD i 0) (applyRelayMask m s).hw = some (bitLevel m i) := by
    unfold applyRelayMask
    apply levelOf_applyRelayMaskLoop_mem
    · intro j hj hp
      have hj2 : j < s.RELAY_PINS.length := by rw [hlen]; exact List.mem_range.mp hj
      have hi2 : i < s.RELAY_PINS.length := by rw [hlen]; exact hi
      rw [List.getD_eq_getElem _ 0 hj2, List.getD_eq_getElem _ 0 hi2] at hp
      have := (List.Nodup.getElem_inj_iff hnd).mp hp
      rw [this]
    · exact ⟨i, List.mem_range.mpr hi, rfl⟩
  have hbit : ((m >>> i) &&& 1 != 0) = decide (m / 2 ^ i % 2 = 1) := by
    rw [Nat.shiftRight_eq_div_pow, Nat.and_one_is_mod]
    rcases Nat.mod_two_eq_zero_or_one (m / 2 ^ i) with h | h <;> simp [h]
  have hb : bitLevel m i = if m / 2 ^ i % 2 = 1 then LOW else HIGH := by
    unfold bitLevel
    rw [hbit]
    by_cases h : m / 2 ^ i % 2 = 1
    · rw [if_pos h, if_pos (by simpa using h)]; rfl
    · rw [if_neg h, if_neg (by simpa using h)]; rfl
  refine ⟨by simp [applyRelayMask], ?_, ?_⟩
  · intro h
    rw [hlev, hb, if_pos h]
  · intro h
    rw [hlev, hb, if_neg h]

/-- Witness for C2: mask `0x0002` on the default map drives channel 1 (line 14)
LOW and channel 0 (line 13) HIGH. -/
theorem applyRelayMask_levels_witness :
    levelOf 14 (applyRelayMask 2 bootState).hw = some LOW ∧
    levelOf 13 (applyRelayMask 2 bootState).hw = some HIGH :=
  ⟨(applyRelayMask_levels 2 bootState (by decide) (by decide) (by decide) 1 (by decide)).2.1
      (by decide),
   (applyRelayMask_levels 2 bootState (by decide) (by decide) (by decide) 0 (by decide)).2.2
      (by decide)⟩

/-- C3, as stated, fails: the line `K:10000000000000000` is `K:` followed by
17 hexadecimal digits whose value 2^64 is 0 modulo 2^13, it fits a frame (19
bytes), and `tryParseAndApply` accepts it, yet the mask applied and recorded
is `0x1FFF` (all channels on), because `strtol` returns `LONG_MAX` for a value
that does not fit in a `long`.  The same happens from `K:80000000` on with
the 32 bit `long` of the target. -/
theorem tryParseAndApply_hex_overflow :
    (∀ c ∈ bytes "10000000000000000", isHexDigit c = true) ∧
    (bytes "K:10000000000000000").length ≤ 23 ∧
    hexValue (bytes "10000000000000000") % 2 ^ 13 = 0 ∧
    (tryParseAndApply 0 (bytes "K:10000000000000000") bootState).2 = true ∧
    (tryParseAndApply 0 (bytes "K:10000000000000000") bootState).1.lastMask = 0x1FFF ∧
    hexValue (bytes "80000000") % 2 ^ 13 = 0 ∧
    (tryParseAndApply 0 (bytes "K:80000000") bootState).1.lastMask = 0x1FFF := by
  refine ⟨by decide, by decide, by decide, by decide, by decide, by decide, by decide⟩

/-- C3, amended: for every line made of leading spaces/tabs, `K:` and a
string `h` of hexadecimal digits up to the NUL, `tryParseAndApply` returns
true, applies the mask with `applyRelayMask`, records it as `lastMask`,
stamps `lastCmdMs` and drives the LED on iff the mask is not 0, where the
mask is (the base-16 value of `h`) mod 2^13 when that value is below 2^31
(fits the 32 bit `long` of `strtol`), and `0x1FFF` otherwise. -/
theorem tryParseAndApply_hex (now : Nat) (ws h : List Nat) (s : State)
    (hws : ∀ c ∈ ws, c = 32 ∨ c = 9) (hh : ∀ c ∈ h, isHexDigit c = true) :
    (tryParseAndApply now (ws ++ 75 :: 58 :: h) s).2 = true ∧
    (tryParseAndApply now (ws ++ 75 :: 58 :: h) s).1.lastMask =
      (if hexValue h < 2 ^ 31 then hexValue h % 2 ^ 13 else 0x1FFF) ∧
    (tryParseAndApply now (ws ++ 75 :: 58 :: h) s).1.lastCmdMs = now ∧
    (tryParseAndApply now (ws ++ 75 :: 58 :: h) s).1.hw =
      HwOp.digitalWrite 2
          (if (if hexValue h < 2 ^ 31 then hexValue h % 2 ^ 13 else 0x1FFF) = 0 then LOW
           else HIGH) ::
        (applyRelayMask (if hexValue h < 2 ^ 31 then hexValue h % 2 ^ 13 else 0x1FFF) s).hw := by
  rw [tryParseAndApply_cmd now ws h s hws, parseMask_hex h hh, setLed_eq]
  refine ⟨rfl, rfl, rfl, ?_⟩
  by_cases hz : (if hexValue h < 2 ^ 31 then hexValue h % 2 ^ 13 else 0x1FFF) = 0
  · simp [hz, ledLevel]
  · simp [hz, ledLevel]

/-- Witness for C3: `K:1FFF` gives `0x1FFF` and `K:2000` gives `0x0000`. -/
theorem tryParseAndApply_hex_witness :
    (tryParseAndApply 7 (bytes "K:1FFF") bootState).1.lastMask = 0x1FFF ∧
    (tryParseAndApply 7 (bytes "K:2000") bootState).1.lastMask = 0 :=
  ⟨(tryParseAndApply_hex 7 [] (bytes "1FFF") bootState (by decide) (by decide)).2.1.trans
      (by decide),
   (tryParseAndApply_hex 7 [] (bytes "2000") bootState (by decide) (by decide)).2.1.trans
      (by decide)⟩

/-- C6, as stated, fails: in `K:-1` the text after `K:` does not begin with a
hexadecimal digit, yet `strtol` reads the sign and the digit, and the mask
applied and recorded is `0x1FFF`, not 0; `K: 1` (a space, then a digit)
likewise gives mask 1. -/
theorem tryParseAndApply_sign_not_zero :
    isHexDigit ((bytes "-1").getD 0 0) = false ∧
    (tryParseAndApply 0 (bytes "K:-1") bootState).2 = true ∧
    (tryParseAndApply 0 (bytes "K:-1") bootState).1.lastMask = 0x1FFF ∧
    levelOf 13 (tryParseAndApply 0 (bytes "K:-1") bootState).1.hw = some RELAY_ACTIVE_LEVEL ∧
    isHexDigit ((bytes " 1").getD 0 0) = false ∧
    (tryParseAndApply 0 (bytes "K: 1") bootState).1.lastMask = 1 := by
  refine ⟨by decide, by decide, by decide, by decide, by decide, by decide⟩

/-- C6, amended: for every line that after leading spaces/tabs is `K:`
followed by white space `sp`, at most one sign and a rest `r` that does not
begin with a hexadecimal digit (with no sign, `r` begins with neither white
space nor a sign, so that `sp` and the sign are all that `strtol` skips), on a
map of allowed lines `tryParseAndApply` returns true with the numeric value
zero: every channel's line is inactive, `lastMask = 0` and the LED is off. -/
theorem tryParseAndApply_malformed (now : Nat) (ws sp sign r : List Nat) (s : State)
    (hwf : WF s) (hws : ∀ c ∈ ws, c = 32 ∨ c = 9) (hsp : ∀ c ∈ sp, isspace c = true)
    (hsign : sign = [] ∨ sign = [43] ∨ sign = [45])
    (hr : isHexDigit (r.getD 0 0) = false)
    (hmax : sign = [] → isspace (r.getD 0 0) = false ∧ r.getD 0 0 ≠ 43 ∧ r.getD 0 0 ≠ 45) :
    (tryParseAndApply now (ws ++ 75 :: 58 :: (sp ++ sign ++ r)) s).2 = true ∧
    (tryParseAndApply now (ws ++ 75 :: 58 :: (sp ++ sign ++ r)) s).1.lastMask = 0 ∧
    allInactive (tryParseAndApply now (ws ++ 75 :: 58 :: (sp ++ sign ++ r)) s).1 ∧
    levelOf 2 (tryParseAndApply now (ws ++ 75 :: 58 :: (sp ++ sign ++ r)) s).1.hw = some LOW := by
  rw [tryParseAndApply_cmd now ws _ s hws, parseMask_nodigits sp sign r hsp hsign hr hmax,
    setLed_eq]
  refine ⟨rfl, rfl, ?_⟩
  exact allOff_ledOff s _ hwf (by simp [applyRelayMask]) rfl

/-- Witness for C6: the lines `K:` (empty rest) and ` K:zz` on the default map. -/
theorem tryParseAndApply_malformed_witness :
    (tryParseAndApply 3 (bytes "K:") bootState).1.lastMask = 0 ∧
    (tryParseAndApply 3 (bytes " K:zz") bootState).1.lastMask = 0 :=
  ⟨(tryParseAndApply_malformed 3 [] [] [] [] bootState (by decide) (by decide) (by decide)
      (Or.inl rfl) (by decide) (by decide)).2.1,
   (tryParseAndApply_malformed 3 [32] [] [] (bytes "zz") bootState (by decide) (by decide)
      (by decide) (Or.inl rfl) (by decide) (by decide)).2.1⟩

/-- C1, as stated, fails at the boundary: after the command `K:1` accepted at
`T0 = 0` on the default map, a pass of `loop()` run at `t = 500 = T0 + 500`
with no byte and no request leaves channel 0 (line 13) at the active level,
since `loop()` tests `now - lastCmdMs > 500`. -/
theorem watchdog_boundary_still_active :
    (tryParseAndApply 0 (bytes "K:1") bootState).2 = true ∧
    (tryParseAndApply 0 (bytes "K:1") bootState).1.lastMask ≠ 0 ∧
    (tryParseAndApply 0 (bytes "K:1") bootState).1.lastCmdMs = 0 ∧
    0 + RELAY_TIMEOUT_MS ≤ 500 ∧
    levelOf 13 (idlePasses [500] (tryParseAndApply 0 (bytes "K:1") bootState).1).hw
      = some RELAY_ACTIVE_LEVEL ∧
    ¬ allInactive (idlePasses [500] (tryParseAndApply 0 (bytes "K:1") bootState).1) := by
  refine ⟨by decide, by decide, by decide, by decide, by decide, by decide⟩

/-- C1, amended: for every non-zero mask command accepted by
`tryParseAndApply` at time `T0` on a map of allowed lines, and every
sequence `pre ++ t :: post` of later passes of `loop()` with no byte and no
request, run at non-decreasing times below 2^32: when the pass at `t` is run
at a time `t > T0 + 500`, every channel's line is inactive after that pass
(`k = 0`) and after each of the later passes (the first `k` passes of `post`,
for every `k`). -/
theorem watchdog_forces_off (T0 : Nat) (line : List Nat) (s : State)
    (pre : List Nat) (t : Nat) (post : List Nat) (k : Nat)
    (hwf : WF s)
    (hacc : (tryParseAndApply T0 line s).2 = true)
    (hmask : (tryParseAndApply T0 line s).1.lastMask ≠ 0)
    (hsorted : List.Pairwise (fun a b => a ≤ b) (T0 :: (pre ++ t :: post)))
    (hbound : ∀ x ∈ pre ++ t :: post, x < U32)
    (hlate : T0 + RELAY_TIMEOUT_MS < t) :
    (tryParseAndApply T0 line s).1.lastCmdMs = T0 ∧
    allInactive (idlePasses (pre ++ t :: post.take k) (tryParseAndApply T0 line s).1) := by
  have hkeep : (tryParseAndApply T0 line s).1.RELAY_PINS = s.RELAY_PINS ∧
      (tryParseAndApply T0 line s).1.lastCmdMs = T0 := by
    unfold tryParseAndApply at hacc ⊢
    simp only at hacc ⊢
    by_cases hk : (skipBlanks line).getD 0 0 ≠ 75 ∨ (skipBlanks line).getD 1 0 ≠ 58
    · rw [if_pos hk] at hacc
      cases hacc
    · rw [if_neg hk, setLed_eq]
      exact ⟨by simp [applyRelayMask], rfl⟩
  have hsub : ∀ x ∈ pre ++ t :: post.take k, x ∈ pre ++ t :: post := by
    intro x hx
    rcases List.mem_append.mp hx with h | h
    · exact List.mem_append_left _ h
    · rcases List.mem_cons.mp h with h | h
      · exact List.mem_append_right _ (h ▸ List.mem_cons_self _ _)
      · exact List.mem_append_right _ (List.mem_cons_of_mem _ (List.mem_of_mem_take h))
  refine ⟨hkeep.2, ?_⟩
  apply idlePasses_armed T0 _ _ ?_ hmask hkeep.2 ?_
    ⟨t, List.mem_append_right _ (List.mem_cons_self _ _), hlate⟩
  · exact ⟨by rw [hkeep.1]; exact hwf.1, by rw [hkeep.1]; exact hwf.2⟩
  · intro x hx
    exact ⟨(List.pairwise_cons.mp hsorted).1 x (hsub x hx), hbound x (hsub x hx)⟩

/-- Witness for C1: `K:1` at `T0 = 100`, then passes at 300, 600, 601, 5000
and 5000; all lines are inactive after the pass at 601 and the next one. -/
theorem watchdog_forces_off_witness :
    allInactive (idlePasses [300, 600, 601, 5000]
      (tryParseAndApply 100 (bytes "K:1") bootState).1) :=
  (watchdog_forces_off 100 (bytes "K:1") bootState [300, 600] 601 [5000, 5000] 1
    (by decide) (by decide) (by decide) (by decide) (by decide) (by decide)).2

/-- C10: for every state on a map of allowed lines with `lastMask ≠ 0` and
every pass of `loop()` that receives no transport byte (with or without a
configurator request) and reads a clock value `now` with
`(now - lastCmdMs) mod 2^32 > 500`: after the pass every channel's line is
inactive, the LED is off, `lastMask = 0` and `lastCmdMs = now`, and the next
pass without byte and request, at whatever time (so also within 500 ms),
writes no output line.  The elapsed time is computed modulo 2^32, so the
counter may have wrapped between `lastCmdMs` and `now`. -/
theorem loop_watchdog_step (req : Option Request) (now : Nat) (s : State) (hwf : WF s)
    (hm : s.lastMask ≠ 0)
    (hel : (now + U32 - s.lastCmdMs) % U32 > RELAY_TIMEOUT_MS) :
    allInactive (loop req [] now s) ∧
    levelOf 2 (loop req [] now s).hw = some LOW ∧
    (loop req [] now s).lastMask = 0 ∧
    (loop req [] now s).lastCmdMs = now ∧
    ∀ next, (loop none [] next (loop req [] now s)).hw = (loop req [] now s).hw := by
  obtain ⟨hwf1, hm1, ht1⟩ := handleClient_keeps req s hwf
  have hstep : loop req [] now s =
      { ({ setLed false (allRelaysOff (handleClient req s)) with lastMask := 0 } : State) with
        lastCmdMs := now } := by
    simp only [loop, rxDrain]
    rw [ht1, hm1, if_pos hel, if_pos hm]
  obtain ⟨h1, h2, h3, h4⟩ := watchdog_fire (handleClient req s) _ now hwf1 hstep
  exact ⟨h1, h2, h3, h4, fun next => (loop_idle_of_zero next _ h3).1⟩

/-- Witness for C10: mask 1 applied at clock 2^32 - 100, pass at clock 500
after the counter wrapped (600 ms elapsed). -/
theorem loop_watchdog_step_witness :
    allInactive (loop none [] 500 (tryParseAndApply 4294967196 (bytes "K:1") bootState).1) ∧
    (loop none [] 500 (tryParseAndApply 4294967196 (bytes "K:1") bootState).1).lastCmdMs
      = 500 :=
  ⟨(loop_watchdog_step none 500 (tryParseAndApply 4294967196 (bytes "K:1") bootState).1
      (by decide) (by decide) (by decide)).1,
   (loop_watchdog_step none 500 (tryParseAndApply 4294967196 (bytes "K:1") bootState).1
      (by decide) (by decide) (by decide)).2.2.2.1⟩

/-- C4 fails on the code: fed 24 data bytes `A` from `rxIdx = 0`, the framer
resets `rxIdx` to 0 at the 24th byte and then stores that byte at
`rxBuf[rxIdx - 1]`, index 2^32 - 1 in `size_t`, outside the 24 bytes. -/
theorem rxDrain_store_outside_buffer :
    (rxDrain (atTime 0 (List.replicate 24 65)) bootState).rxStores.head? = some 4294967295 ∧
    ¬ (4294967295 < RXBUF_SIZE) ∧
    (rxDrain (atTime 0 (List.replicate 24 65)) bootState).rxIdx = 0 := by
  refine ⟨by decide, by decide, by decide⟩

/-- C7, as stated, fails: with the default map in force, the proposed
identifiers `270, 13, 18, ..., 16` contain 270, which is not in the Allowed
Output Set, yet `handleSave` answers 200 and replaces the map, channel 0
getting line 14 (270 mod 256) and channel 1 line 13. -/
theorem handleSave_accepts_wrapped_identifier :
    (270 : Int) ∉ ALLOWED_IDS ∧
    (handleSave ([270, 13, 18, 19, 21, 22, 23, 25, 26, 27, 32, 33, 16].map some) bootState).2
      = 200 ∧
    (handleSave ([270, 13, 18, 19, 21, 22, 23, 25, 26, 27, 32, 33, 16].map some)
        bootState).1.RELAY_PINS = [14, 13, 18, 19, 21, 22, 23, 25, 26, 27, 32, 33, 16] ∧
    (handleSave ([270, 13, 18, 19, 21, 22, 23, 25, 26, 27, 32, 33, 16].map some)
        bootState).1.RELAY_PINS ≠ bootState.RELAY_PINS := by
  refine ⟨by decide, by rfl, by rfl, by decide⟩

/-- C7, amended: for every proposed mapping of 13 integer identifiers in
which at least one identifier, converted to `uint8_t` (reduced modulo 256)
as `handleSave` does before it checks, is not a member of the Allowed Output
Set, the request is rejected in full (status 400) and the state, `RELAY_PINS`
included, is exactly as before. -/
theorem handleSave_rejects_not_allowed (vals : List Int) (s : State)
    (hlen : vals.length = RELAY_COUNT) (hbad : ∃ v ∈ vals, toU8 v ∉ ALLOWED_PINS) :
    handleSave (vals.map some) s = (s, 400) ∧
    (handleSave (vals.map some) s).1.RELAY_PINS = s.RELAY_PINS := by
  have hnone : readPins (vals.map some) (List.range RELAY_COUNT) = none := by
    apply readPins_none
    obtain ⟨v, hv, hnot⟩ := hbad
    obtain ⟨k, hk, hkv⟩ := List.getElem_of_mem hv
    refine ⟨k, List.mem_range.mpr (by rw [← hlen]; exact hk), ?_⟩
    intro w hw
    rw [List.getD_eq_getElem _ _ (by simpa using hk)] at hw
    simp only [List.getElem_map, Option.some.injEq] at hw
    rw [← hw, hkv]
    cases hal : isAllowedPin (toU8 v) with
    | false => rfl
    | true => exact absurd ((isAllowedPin_iff _).mp hal) hnot
  have : handleSave (vals.map some) s = (s, 400) := by
    unfold handleSave
    rw [hnone]
  exact ⟨this, by rw [this]⟩

/-- Witness for C7: identifier 4 (the transport's RX line) for channel 2. -/
theorem handleSave_rejects_not_allowed_witness :
    handleSave ([13, 14, 4, 19, 21, 22, 23, 25, 26, 27, 32, 33, 16].map some) bootState
      = (bootState, 400) :=
  (handleSave_rejects_not_allowed [13, 14, 4, 19, 21, 22, 23, 25, 26, 27, 32, 33, 16] bootState
    (by decide) ⟨4, by decide, by decide⟩).1

/-- C8: for every proposed mapping of 13 identifiers of the Allowed Output
Set in which two channels `i < j` carry the same identifier, `hasDuplicates`
returns true on the collected pins and `handleSave` answers 409 with the
state exactly as before: `RELAY_PINS`, the pin log (so the level of every
line) and the preferences store are untouched. -/
theorem handleSave_rejects_duplicates (vals : List Int) (s : State)
    (hlen : vals.length = RELAY_COUNT) (hall : ∀ v ∈ vals, v ∈ ALLOWED_IDS)
    (i j : Nat) (hij : i < j) (hj : j < RELAY_COUNT) (heq : vals.getD i 0 = vals.getD j 0) :
    hasDuplicates (vals.map toU8) RELAY_COUNT = true ∧
    handleSave (vals.map some) s = (s, 409) ∧
    (handleSave (vals.map some) s).1.RELAY_PINS = s.RELAY_PINS ∧
    (handleSave (vals.map some) s).1.hw = s.hw ∧
    (handleSave (vals.map some) s).1.prefs = s.prefs := by
  obtain ⟨h1, h2⟩ := handleSave_conflict vals s hlen
    (fun v hv => toU8_allowed_id v (hall v hv)) i j hij hj (by rw [heq])
  rw [map_range_getD toU8 vals RELAY_COUNT hlen] at h1
  refine ⟨h1, h2, ?_, ?_, ?_⟩ <;> rw [h2]

/-- Witness for C8: line 14 proposed for channels 1 and 12. -/
theorem handleSave_rejects_duplicates_witness :
    handleSave ([13, 14, 18, 19, 21, 22, 23, 25, 26, 27, 32, 33, 14].map some) bootState
      = (bootState, 409) :=
  (handleSave_rejects_duplicates [13, 14, 18, 19, 21, 22, 23, 25, 26, 27, 32, 33, 14] bootState
    (by decide) (by decide) 1 12 (by decide) (by decide) (by decide)).2.1

/-- C9 fails on the code: with only `p0 = 14` stored, `loadPinsFromPrefs` on
the default map assigns line 14 to channel 0 while channel 1 keeps line 14,
so the loaded map has a duplicate, and channel 0 was updated although the
assignment is invalid; `handleSave` rejects the very same assignment (409). -/
theorem loadPinsFromPrefs_loads_duplicate :
    (loadPinsFromPrefs { bootState with prefs := [(Key.p 0, 14)] }).RELAY_PINS
      = [14, 14, 18, 19, 21, 22, 23, 25, 26, 27, 32, 33, 16] ∧
    hasDuplicates (loadPinsFromPrefs { bootState with prefs := [(Key.p 0, 14)] }).RELAY_PINS
      RELAY_COUNT = true ∧
    (handleSave ([14, 14, 18, 19, 21, 22, 23, 25, 26, 27, 32, 33, 16].map some) bootState).2
      = 409 := by
  refine ⟨by decide, by decide, by rfl⟩

end RX
